import Mathlib

/-
Verification of the scope / layer composition model exercised by the
effect-ts teaching scripts in this repository.  The scope machinery itself
lives in the external `effect` package, so the definitions below are
modelled from the repository's design spec (sections 3-5 and 7) and are
checked against the observable assertions of the example scripts
(`effect ts - Scopes.ts`, `effect ts - Layers detailed.js`).
-/

namespace EffectModel

/-- Modelled from the spec: the cause of a failed computation.  The library's
`Cause` distinguishes ordinary failures from interruption and can combine
causes sequentially (used when finalizer failures are merged into a
pre-existing failure). -/
inductive Cause (ε : Type) where
  | fail (e : ε)
  | interrupt
  | seqC (left right : Cause ε)
  deriving DecidableEq, Repr

/-- Modelled from the spec: the exit value of a computation.  As the source
asserts (`Scopes.ts` lines 112-114), the library's exit is two-tagged:
`Success` or `Failure`; interruption is a `Failure` whose cause is
`interrupt`. -/
inductive Exit (ε α : Type) where
  | success (value : α)
  | failure (cause : Cause ε)
  deriving DecidableEq, Repr

/-- The `_tag` field the examples inspect on an exit. -/
def Exit.tag {ε α : Type} : Exit ε α → String
  | Exit.success _ => "Success"
  | Exit.failure _ => "Failure"

/-- Forget the success value of an exit (scopes are closed with an exit of
unit type). -/
def Exit.asUnit {ε α : Type} : Exit ε α → Exit ε Unit
  | Exit.success _ => Exit.success ()
  | Exit.failure c => Exit.failure c

/-- Modelled from the spec: a finalizer is a cleanup action bound to a scope.
It receives the closing exit; `run` returns `some e` when the finalizer
itself fails with `e` and `none` when it succeeds. -/
structure Finalizer (ε : Type) where
  id : Nat
  run : Exit ε Unit → Option ε

/-- One recorded finalizer invocation: which finalizer ran and which exit it
observed. -/
structure Entry (ε : Type) where
  id : Nat
  observed : Exit ε Unit
  deriving DecidableEq, Repr

/-- Modelled from the spec: a scope tracks an ordered list of registered
finalizers, a closed flag, and (once closed) the exit it was closed with. -/
structure Scope (ε : Type) where
  finalizers : List (Finalizer ε)
  closed : Bool
  closedWith : Option (Exit ε Unit)

/-- A freshly created scope: open, no finalizers. -/
def newScope {ε : Type} : Scope ε :=
  ⟨[], false, none⟩

/-- Modelled from the spec and `asyncScopeExample`: registering a finalizer
appends it to an open scope's list; on an already-closed scope the finalizer
is not added but is invoked immediately with the exit the scope was closed
with (the behaviour the source's `asyncScopeExample` asserts via its
`taskCleanedUp` flag).  The returned list records any immediate
invocation. -/
def addFinalizer {ε : Type} (s : Scope ε) (f : Finalizer ε) :
    Scope ε × List (Entry ε) :=
  if s.closed then
    match s.closedWith with
    | some ex => (s, [⟨f.id, ex⟩])
    | none => (s, [])
  else
    ({ s with finalizers := s.finalizers ++ [f] }, [])

/-- Run a list of finalizers in order, all of them, recording each invocation
and collecting the errors of those that fail. -/
def runFins {ε : Type} (fs : List (Finalizer ε)) (ex : Exit ε Unit) :
    List (Entry ε) × List ε :=
  match fs with
  | [] => ([], [])
  | f :: rest =>
      let tail := runFins rest ex
      (⟨f.id, ex⟩ :: tail.1,
        (match f.run ex with
         | some e => [e]
         | none => []) ++ tail.2)

/-- Combine a non-empty list of finalizer errors into one composite cause. -/
def Cause.ofErrors {ε : Type} (e : ε) (rest : List ε) : Cause ε :=
  rest.foldl (fun c e2 => Cause.seqC c (Cause.fail e2)) (Cause.fail e)

/-- Modelled from the spec: finalizer failures collected during close are
reported as a composite cause, merged into a pre-existing failure rather than
replacing it. -/
def mergeExit {ε : Type} (ex : Exit ε Unit) (errs : List ε) : Exit ε Unit :=
  match errs with
  | [] => ex
  | e :: rest =>
      match ex with
      | Exit.success _ => Exit.failure (Cause.ofErrors e rest)
      | Exit.failure c => Exit.failure (Cause.seqC c (Cause.ofErrors e rest))

/-- A cause `c` contains `target` when `target` occurs as a node of `c`. -/
def Cause.contains {ε : Type} : Cause ε → Cause ε → Prop
  | Cause.fail e, target => Cause.fail e = target
  | Cause.interrupt, target => Cause.interrupt = target
  | Cause.seqC a b, target =>
      Cause.seqC a b = target ∨ Cause.contains a target ∨ Cause.contains b target

/-- The result of closing a scope: the closed scope, the recorded finalizer
invocations, and the (possibly error-merged) final exit. -/
structure CloseResult (ε : Type) where
  scope : Scope ε
  trace : List (Entry ε)
  exit : Exit ε Unit

/-- Modelled from the spec: closing marks the scope closed and runs every
registered finalizer in reverse-registration (LIFO) order, passing the
closing exit to each; finalizer failures are merged into the exit.  Closing
an already-closed scope is a no-op. -/
def close {ε : Type} (s : Scope ε) (ex : Exit ε Unit) : CloseResult ε :=
  if s.closed then ⟨s, [], ex⟩
  else
    let r := runFins s.finalizers.reverse ex
    ⟨⟨[], true, some ex⟩, r.1, mergeExit ex r.2⟩

/-- Register a list of finalizers, in order, on an existing scope. -/
def registerAllOn {ε : Type} (s : Scope ε) (l : List (Finalizer ε)) : Scope ε :=
  l.foldl (fun s2 f => (addFinalizer s2 f).1) s

/-- Register a list of finalizers, in order, on a fresh scope. -/
def registerAll {ε : Type} (l : List (Finalizer ε)) : Scope ε :=
  registerAllOn newScope l

-- Basic facts about registration.

theorem addFinalizer_open {ε : Type} (s : Scope ε) (f : Finalizer ε)
    (hs : s.closed = false) :
    (addFinalizer s f).1 = { s with finalizers := s.finalizers ++ [f] } := by
  simp [addFinalizer, hs]

theorem registerAllOn_open {ε : Type} (l : List (Finalizer ε)) :
    ∀ s : Scope ε, s.closed = false →
      (registerAllOn s l).finalizers = s.finalizers ++ l ∧
      (registerAllOn s l).closed = false ∧
      (registerAllOn s l).closedWith = s.closedWith := by
  induction l with
  | nil => intro s hs; simp [registerAllOn, hs]
  | cons f rest ih =>
      intro s hs
      have step : (addFinalizer s f).1 = { s with finalizers := s.finalizers ++ [f] } :=
        addFinalizer_open s f hs
      have h2 := ih { s with finalizers := s.finalizers ++ [f] } hs
      simpa [registerAllOn, step] using h2

theorem registerAll_spec {ε : Type} (l : List (Finalizer ε)) :
    (registerAll l).finalizers = l ∧ (registerAll l).closed = false := by
  have h := registerAllOn_open l (newScope (ε := ε)) rfl
  simpa [registerAll, newScope] using ⟨h.1, h.2.1⟩

theorem runFins_trace {ε : Type} (fs : List (Finalizer ε)) (ex : Exit ε Unit) :
    (runFins fs ex).1 = fs.map (fun f => ⟨f.id, ex⟩) := by
  induction fs with
  | nil => simp [runFins]
  | cons f rest ih => simp [runFins, ih]

/-- C1: closing a scope whose finalizers were registered in order `l` invokes
them in strict reverse-registration (LIFO) order, each exactly once, passing
the closing exit to each. -/
theorem close_invokes_finalizers_LIFO_exactly_once {ε : Type}
    (l : List (Finalizer ε)) (ex : Exit ε Unit) :
    (close (registerAll l) ex).trace = l.reverse.map (fun f => ⟨f.id, ex⟩) ∧
    ∀ n : Nat,
      ((close (registerAll l) ex).trace.map Entry.id).count n =
        (l.map Finalizer.id).count n := by
  obtain ⟨hf, hc⟩ := registerAll_spec l
  have htrace : (close (registerAll l) ex).trace =
      l.reverse.map (fun f => ⟨f.id, ex⟩) := by
    simp [close, hc, hf, runFins_trace]
  refine ⟨htrace, fun n => ?_⟩
  rw [htrace]
  have : (l.reverse.map (fun f => (⟨f.id, ex⟩ : Entry ε))).map Entry.id =
      (l.map Finalizer.id).reverse := by
    simp [List.map_reverse]
  rw [this, List.count_reverse]

/-- The result of running an action under the scoped-run convenience. -/
structure RunResult (ε α : Type) where
  scope : Scope ε
  trace : List (Entry ε)
  exit : Exit ε α

/-- Modelled from the spec: `runScoped` creates a fresh scope, runs the
action with it, and closes the scope with the action's exit on every exit
path; finalizer failures collected by the close are merged into the
propagated result. -/
def runScoped {ε α : Type} (action : Scope ε → Scope ε × Exit ε α) :
    RunResult ε α :=
  let step := action newScope
  let r := close step.1 step.2.asUnit
  ⟨r.scope, r.trace,
    match r.exit with
    | Exit.success _ => step.2
    | Exit.failure c => Exit.failure c⟩

/-- An action that registers the given finalizers in order and then finishes
with the given exit (which may be a success, a failure, or an
interruption). -/
def mkAction {ε α : Type} (fins : List (Finalizer ε)) (ex : Exit ε α) :
    Scope ε → Scope ε × Exit ε α :=
  fun s => (registerAllOn s fins, ex)

theorem mkAction_newScope {ε α : Type} (fins : List (Finalizer ε))
    (ex : Exit ε α) : mkAction fins ex newScope = (registerAll fins, ex) := rfl

/-- C2: running an action under the scoped-run convenience closes the scope
on every exit path — whatever exit the action produces (success, failure or
interruption), the scope ends closed and every finalizer registered in it
has run, in LIFO order, before the result propagates. -/
theorem runScoped_closes_scope_on_every_exit_path {ε α : Type}
    (fins : List (Finalizer ε)) (ex : Exit ε α) :
    (runScoped (mkAction fins ex)).scope.closed = true ∧
    (runScoped (mkAction fins ex)).trace =
      fins.reverse.map (fun f => ⟨f.id, ex.asUnit⟩) := by
  obtain ⟨hf, hc⟩ := registerAll_spec fins
  constructor
  · simp [runScoped, mkAction_newScope, close, hc]
  · simp [runScoped, mkAction_newScope, close, hc, hf, runFins_trace]

/-- Modelled from the spec: the acquire-release combinator followed by an
arbitrary continuation.  If `acq` fails the failure propagates and nothing is
registered; if it succeeds the release finalizer is registered on the ambient
scope and the continuation decides the final exit. -/
def acqRelProg {ε α : Type} (acq : Except ε Nat) (rel : Nat → Finalizer ε)
    (cont : Nat → Exit ε α) : Scope ε → Scope ε × Exit ε α :=
  fun s =>
    match acq with
    | Except.error e => (s, Exit.failure (Cause.fail e))
    | Except.ok a => ((addFinalizer s (rel a)).1, cont a)

/-- C3: for an acquire/release pair run under the scoped-run convenience:
if acquire fails no release finalizer is registered (and none runs); if
acquire succeeds the release finalizer is invoked exactly once when the scope
closes, whatever the continuation's exit (success, failure or
interruption). -/
theorem acquireRelease_registers_iff_acquired {ε α : Type}
    (rel : Nat → Finalizer ε) (cont : Nat → Exit ε α) :
    (∀ e : ε,
      (acqRelProg (Except.error e) rel cont newScope).1.finalizers = [] ∧
      (runScoped (acqRelProg (Except.error e) rel cont)).trace = [] ∧
      (runScoped (acqRelProg (Except.error e) rel cont)).exit =
        Exit.failure (Cause.fail e)) ∧
    (∀ a : Nat,
      (runScoped (acqRelProg (Except.ok a) rel cont)).trace =
        [⟨(rel a).id, (cont a).asUnit⟩]) := by
  constructor
  · intro e
    refine ⟨rfl, ?_, ?_⟩ <;>
      simp [runScoped, acqRelProg, newScope, close, runFins, mergeExit, Exit.asUnit]
  · intro a
    simp [runScoped, acqRelProg, newScope, addFinalizer, close, runFins]

/-- The finalizer of the source's interruption example (`interruptProgram`,
`Scopes.ts` lines 88-97): it records the exit it observes and succeeds. -/
def interruptFin : Finalizer String := ⟨5, fun _ => none⟩

/-- The interruption example run under the scoped-run convenience: one
finalizer is registered and the computation then interrupts itself. -/
def interruptRun : RunResult String Nat :=
  runScoped (mkAction [interruptFin] (Exit.failure Cause.interrupt))

/-- C5 counterexample: in the interruption example the finalizer does run,
but the exit it observes is tagged "Failure" — not a distinct "Interrupted"
variant (exactly what `Scopes.ts` line 114 asserts: the interrupt case has
Failure exit state).  This refutes the claim that finalizers observe a
distinct third Interrupted variant. -/
theorem interrupt_finalizer_observes_Failure_tag :
    interruptRun.trace = [⟨5, Exit.failure Cause.interrupt⟩] ∧
    interruptRun.trace.map (fun en => en.observed.tag) = ["Failure"] ∧
    ("Failure" : String) ≠ "Interrupted" := by
  refine ⟨rfl, rfl, ?_⟩
  decide

/-- C5 amended: when a computation in a scope is interrupted, all finalizers
registered in the scope still run, in LIFO order exactly as under a normal
failure; each observes a Failure-tagged exit whose cause is interruption
(the exit has only Success and Failure tags, interruption being recorded in
the failure's cause). -/
theorem interruption_runs_finalizers_as_failure {ε : Type}
    (fins : List (Finalizer ε)) (e : ε) :
    (runScoped (mkAction fins (Exit.failure Cause.interrupt : Exit ε Unit))).trace =
      fins.reverse.map (fun f => ⟨f.id, Exit.failure Cause.interrupt⟩) ∧
    (runScoped (mkAction fins (Exit.failure Cause.interrupt : Exit ε Unit))).trace.map
        (fun en => en.observed.tag) =
      List.replicate fins.length "Failure" ∧
    (runScoped (mkAction fins (Exit.failure Cause.interrupt : Exit ε Unit))).trace.map
        Entry.id =
      (runScoped (mkAction fins (Exit.failure (Cause.fail e) : Exit ε Unit))).trace.map
        Entry.id := by
  have h1 := runScoped_closes_scope_on_every_exit_path fins
    (Exit.failure Cause.interrupt : Exit ε Unit)
  have h2 := runScoped_closes_scope_on_every_exit_path fins
    (Exit.failure (Cause.fail e) : Exit ε Unit)
  refine ⟨?_, ?_, ?_⟩
  · simpa [Exit.asUnit] using h1.2
  · rw [h1.2]
    refine List.eq_replicate_iff.2 ⟨by simp, ?_⟩
    intro b hb
    simp only [List.map_map, List.mem_map, List.mem_reverse, Function.comp] at hb
    obtain ⟨f, _, hfb⟩ := hb
    simpa [Exit.tag, Exit.asUnit] using hfb.symm
  · rw [h1.2, h2.2]
    simp

theorem Cause.contains_self {ε : Type} (c : Cause ε) : c.contains c := by
  cases c <;> simp [Cause.contains]

/-- C6: closing a scope with a Failure outcome runs every registered
finalizer to completion (finalizer failures do not stop the remaining ones),
and the final exit is still a failure whose cause contains the original
failure — finalizer errors are merged in, never replacing it. -/
theorem close_failure_runs_all_and_keeps_original_failure {ε : Type}
    (l : List (Finalizer ε)) (c : Cause ε) :
    (close (registerAll l) (Exit.failure c)).trace =
      l.reverse.map (fun f => ⟨f.id, Exit.failure c⟩) ∧
    ∃ c' : Cause ε,
      (close (registerAll l) (Exit.failure c)).exit = Exit.failure c' ∧
      c'.contains c := by
  obtain ⟨hf, hc⟩ := registerAll_spec l
  refine ⟨?_, ?_⟩
  · simp [close, hc, hf, runFins_trace]
  · rcases herrs : (runFins l.reverse (Exit.failure c)).2 with _ | ⟨e, rest⟩
    · exact ⟨c, by simp [close, hc, hf, herrs, mergeExit], Cause.contains_self c⟩
    · refine ⟨Cause.seqC c (Cause.ofErrors e rest), ?_, ?_⟩
      · simp [close, hc, hf, herrs, mergeExit]
      · exact Or.inr (Or.inl (Cause.contains_self c))

/-- A concrete scope that has been closed (with a Success outcome), used to
exercise registration-after-close. -/
def closedScopeEx : Scope String :=
  (close (registerAll [⟨1, fun _ => none⟩]) (Exit.success ())).scope

/-- C8 counterexample: registering finalizer 8 on an already-closed scope
does invoke it (immediately, with the scope's closing outcome) — refuting
the claim that the rejected finalizer is never invoked.  No error is raised
either (registration returns normally), matching the source's
`asyncScopeExample` where the cleanup registered after the close runs. -/
theorem addFinalizer_after_close_invokes_finalizer :
    (addFinalizer closedScopeEx ⟨8, fun _ => none⟩).2 =
      [⟨8, Exit.success ()⟩] ∧
    (addFinalizer closedScopeEx ⟨8, fun _ => none⟩).1.finalizers = [] := by
  exact ⟨rfl, rfl⟩

/-- C8 amended: registering a finalizer on a closed scope does not add it to
the scope's list and raises no error; instead the finalizer is invoked
immediately, exactly once, receiving the outcome the scope was closed
with. -/
theorem addFinalizer_on_closed_scope_runs_immediately {ε : Type}
    (s : Scope ε) (f : Finalizer ε) (ex : Exit ε Unit)
    (hc : s.closed = true) (hw : s.closedWith = some ex) :
    addFinalizer s f = (s, [⟨f.id, ex⟩]) := by
  simp [addFinalizer, hc, hw]

/-- Witness for the amended C8 theorem at a concrete closed scope. -/
theorem addFinalizer_on_closed_scope_runs_immediately_witness :
    closedScopeEx.closed = true ∧
    closedScopeEx.closedWith = some (Exit.success ()) ∧
    addFinalizer closedScopeEx ⟨9, fun _ => none⟩ =
      (closedScopeEx, [⟨9, Exit.success ()⟩]) :=
  ⟨rfl, rfl,
    addFinalizer_on_closed_scope_runs_immediately closedScopeEx
      ⟨9, fun _ => none⟩ (Exit.success ()) rfl rfl⟩

/-- A pair of independently created scopes sharing one invocation trace, as
in the source's `manualScopeExample`. -/
structure TwoScopes (ε : Type) where
  scopeA : Scope ε
  scopeB : Scope ε
  trace : List (Entry ε)

/-- Both scopes freshly created, each with its own finalizers registered. -/
def twoScopesInit {ε : Type} (fa fb : List (Finalizer ε)) : TwoScopes ε :=
  ⟨registerAll fa, registerAll fb, []⟩

/-- Close only scope A, appending its finalizer invocations to the trace. -/
def closeScopeA {ε : Type} (t : TwoScopes ε) (ex : Exit ε Unit) : TwoScopes ε :=
  let r := close t.scopeA ex
  ⟨r.scope, t.scopeB, t.trace ++ r.trace⟩

/-- Close only scope B, appending its finalizer invocations to the trace. -/
def closeScopeB {ε : Type} (t : TwoScopes ε) (ex : Exit ε Unit) : TwoScopes ε :=
  let r := close t.scopeB ex
  ⟨t.scopeA, r.scope, t.trace ++ r.trace⟩

/-- C9: closing scope A runs only A's finalizers and leaves scope B entirely
unchanged (still open, its finalizers unrun); B's finalizers run only when B
itself is closed, so releases occur in the order the scopes are closed. -/
theorem independent_scopes_close_independently {ε : Type}
    (fa fb : List (Finalizer ε)) (ex : Exit ε Unit) :
    (closeScopeA (twoScopesInit fa fb) ex).scopeB =
      (twoScopesInit fa fb).scopeB ∧
    (closeScopeA (twoScopesInit fa fb) ex).scopeB.closed = false ∧
    (closeScopeA (twoScopesInit fa fb) ex).scopeB.finalizers = fb ∧
    (closeScopeA (twoScopesInit fa fb) ex).trace =
      fa.reverse.map (fun f => ⟨f.id, ex⟩) ∧
    (closeScopeB (closeScopeA (twoScopesInit fa fb) ex) ex).trace =
      fa.reverse.map (fun f => ⟨f.id, ex⟩) ++
        fb.reverse.map (fun f => ⟨f.id, ex⟩) := by
  obtain ⟨hfa, hca⟩ := registerAll_spec fa
  obtain ⟨hfb, hcb⟩ := registerAll_spec fb
  refine ⟨rfl, ?_, ?_, ?_, ?_⟩
  · simpa [closeScopeA, twoScopesInit] using hcb
  · simpa [closeScopeA, twoScopesInit] using hfb
  · simp [closeScopeA, twoScopesInit, close, hca, hfa, runFins_trace]
  · simp [closeScopeA, closeScopeB, twoScopesInit, close, hca, hfa, hcb, hfb,
      runFins_trace]

/-! ### Dependency layer graph -/

/-- A service instance: identified by the layer that constructed it and the
serial number of the construction event that built it.  Two constructions of
the same layer yield instances differing in their serial number. -/
abbrev Inst := Nat × Nat

/-- A context: mapping from service tag to the instance providing it. -/
abbrev Ctx := List (Nat × Inst)

/-- Modelled from the spec: a declarative layer graph.  `succeedL` provides a
precomputed value, `effectL` constructs a value after its dependency tags are
available, `failL` is a layer whose construction fails, `merge` is horizontal
composition, `provide` is vertical composition (source feeds target's
dependencies), and `fresh` bypasses the memoization cache so each occurrence
constructs independently.  Layers carry an explicit identity `id`, the
memoization key. -/
inductive Layer (ε : Type) where
  | succeedL (id tag : Nat)
  | effectL (id tag : Nat) (deps : List Nat)
  | failL (id : Nat) (e : ε)
  | merge (a b : Layer ε)
  | provide (target source : Layer ε)
  | fresh (l : Layer ε)

/-- Resolution errors: a required tag with no providing layer, or a layer
constructor's own failure. -/
inductive LayerError (ε : Type) where
  | missing (tag : Nat)
  | construction (e : ε)
  deriving DecidableEq, Repr

/-- Resolution state: the memoization cache (layer identity to the context it
produced) and the log of construction events (layer identity and the
environment its constructor observed). -/
structure ResSt where
  memo : List (Nat × Ctx)
  events : List (Nat × Ctx)
  deriving DecidableEq, Repr

/-- The empty resolution state: nothing memoized, nothing constructed. -/
def emptyResSt : ResSt := ⟨[], []⟩

/-- Look a tag up in a context. -/
def lookupTag (env : Ctx) (t : Nat) : Option Inst :=
  List.lookup t env

/-- The first dependency tag missing from the environment, if any. -/
def firstMissing (env : Ctx) : List Nat → Option Nat
  | [] => none
  | d :: rest =>
      match lookupTag env d with
      | some _ => firstMissing env rest
      | none => some d

/-- Run one layer constructor: mint a new instance, record the construction
event together with the environment the constructor observed, and memoize
the produced context under the layer's identity. -/
def construct (id tag : Nat) (env : Ctx) (st : ResSt) : ResSt × Ctx :=
  let inst : Inst := (id, st.events.length)
  let ctx : Ctx := [(tag, inst)]
  (⟨(id, ctx) :: st.memo, st.events ++ [(id, env)]⟩, ctx)

/-- Modelled from the spec: sequential, dependency-first layer resolution.
Each non-fresh layer identity is looked up in the memoization cache before
constructing; a construction failure aborts the whole resolution and
surfaces as the resolution's failure; `fresh` resolves its sublayer under an
emptied cache (and its constructions are not shared outward). -/
def resolve {ε : Type} : Layer ε → Ctx → ResSt → ResSt × Except (LayerError ε) Ctx
  | Layer.succeedL id tag, env, st =>
      match List.lookup id st.memo with
      | some ctx => (st, Except.ok ctx)
      | none =>
          let r := construct id tag env st
          (r.1, Except.ok r.2)
  | Layer.effectL id tag deps, env, st =>
      match List.lookup id st.memo with
      | some ctx => (st, Except.ok ctx)
      | none =>
          match firstMissing env deps with
          | some d => (st, Except.error (LayerError.missing d))
          | none =>
              let r := construct id tag env st
              (r.1, Except.ok r.2)
  | Layer.failL _ e, _, st => (st, Except.error (LayerError.construction e))
  | Layer.merge a b, env, st =>
      match resolve a env st with
      | (st1, Except.error err) => (st1, Except.error err)
      | (st1, Except.ok ctxA) =>
          match resolve b env st1 with
          | (st2, Except.error err) => (st2, Except.error err)
          | (st2, Except.ok ctxB) => (st2, Except.ok (ctxA ++ ctxB))
  | Layer.provide target source, env, st =>
      match resolve source env st with
      | (st1, Except.error err) => (st1, Except.error err)
      | (st1, Except.ok ctxS) => resolve target (ctxS ++ env) st1
  | Layer.fresh l, env, st =>
      match resolve l env { st with memo := [] } with
      | (st1, r) => ({ st1 with memo := st.memo }, r)

/-- How many times the constructor of layer `id` ran during resolution. -/
def constructionCount (st : ResSt) (id : Nat) : Nat :=
  (st.events.filter (fun ev => ev.1 == id)).length

/-- The instance of tag `tag` that the constructor of layer `id` observed in
its environment when it was constructed. -/
def observedDep (st : ResSt) (id tag : Nat) : Option Inst :=
  match List.lookup id st.events with
  | some env => lookupTag env tag
  | none => none

/-- The diamond graph of `layerMemoizationExample`: services B and C both
depend on service A; each branch provides A to its consumer and the two
branches are merged. -/
def diamond {ε : Type} (idA idB idC tagA tagB tagC : Nat) : Layer ε :=
  Layer.merge
    (Layer.provide (Layer.effectL idB tagB [tagA]) (Layer.effectL idA tagA []))
    (Layer.provide (Layer.effectL idC tagC [tagA]) (Layer.effectL idA tagA []))

/-- The same diamond with each occurrence of A wrapped in `fresh`. -/
def diamondFresh {ε : Type} (idA idB idC tagA tagB tagC : Nat) : Layer ε :=
  Layer.merge
    (Layer.provide (Layer.effectL idB tagB [tagA])
      (Layer.fresh (Layer.effectL idA tagA [])))
    (Layer.provide (Layer.effectL idC tagC [tagA])
      (Layer.fresh (Layer.effectL idA tagA [])))

/-- C4: in a diamond dependency graph where layer A is depended upon by two
independent branches B and C within one resolution pass, A's constructor runs
exactly once and both branches observe the same shared instance; when each
occurrence of A is wrapped in `fresh`, A constructs once per occurrence and
the branches observe distinct instances. -/
theorem layer_memoization_shares_unless_fresh {ε : Type}
    (idA idB idC tagA tagB tagC : Nat)
    (hAB : idA ≠ idB) (hAC : idA ≠ idC) (hBC : idB ≠ idC) :
    (constructionCount
        (resolve (diamond (ε := ε) idA idB idC tagA tagB tagC) [] emptyResSt).1
        idA = 1 ∧
      observedDep
        (resolve (diamond (ε := ε) idA idB idC tagA tagB tagC) [] emptyResSt).1
        idB tagA = some (idA, 0) ∧
      observedDep
        (resolve (diamond (ε := ε) idA idB idC tagA tagB tagC) [] emptyResSt).1
        idC tagA = some (idA, 0)) ∧
    (constructionCount
        (resolve (diamondFresh (ε := ε) idA idB idC tagA tagB tagC) [] emptyResSt).1
        idA = 2 ∧
      observedDep
        (resolve (diamondFresh (ε := ε) idA idB idC tagA tagB tagC) [] emptyResSt).1
        idB tagA = some (idA, 0) ∧
      observedDep
        (resolve (diamondFresh (ε := ε) idA idB idC tagA tagB tagC) [] emptyResSt).1
        idC tagA = some (idA, 2) ∧
      (some ((idA, 0) : Inst) ≠ some ((idA, 2) : Inst))) := by
  have hBA : idB ≠ idA := Ne.symm hAB
  have hCA : idC ≠ idA := Ne.symm hAC
  have hCB : idC ≠ idB := Ne.symm hBC
  have eAB : (idA == idB) = false := by simp [hAB]
  have eAC : (idA == idC) = false := by simp [hAC]
  have eBC : (idB == idC) = false := by simp [hBC]
  have eBA : (idB == idA) = false := by simp [hBA]
  have eCA : (idC == idA) = false := by simp [hCA]
  have eCB : (idC == idB) = false := by simp [hCB]
  refine ⟨⟨?_, ?_, ?_⟩, ?_, ?_, ?_, ?_⟩ <;>
    simp [diamond, diamondFresh, resolve, construct, firstMissing, lookupTag,
      constructionCount, observedDep, emptyResSt, List.lookup, hAB, hAC, hBC,
      hBA, hCA, hCB, eAB, eAC, eBC, eBA, eCA, eCB]

/-- Witness for the memoization theorem at concrete layer identities. -/
theorem layer_memoization_shares_unless_fresh_witness :
    ((1 : Nat) ≠ 2 ∧ (1 : Nat) ≠ 3 ∧ (2 : Nat) ≠ 3) ∧
    constructionCount
      (resolve (diamond (ε := String) 1 2 3 10 20 30) [] emptyResSt).1 1 = 1 ∧
    constructionCount
      (resolve (diamondFresh (ε := String) 1 2 3 10 20 30) [] emptyResSt).1 1 = 2 :=
  ⟨⟨by decide, by decide, by decide⟩,
    (layer_memoization_shares_unless_fresh (ε := String) 1 2 3 10 20 30
      (by decide) (by decide) (by decide)).1.1,
    (layer_memoization_shares_unless_fresh (ε := String) 1 2 3 10 20 30
      (by decide) (by decide) (by decide)).2.1⟩

/-- Run a program that needs `requiredTag` against a layer: resolve the
layer from an empty state and look the required service up in the produced
context; any resolution error surfaces unchanged to this top-level
caller. -/
def runWithLayer {ε : Type} (l : Layer ε) (requiredTag : Nat) :
    Except (LayerError ε) Inst :=
  match resolve l [] emptyResSt with
  | (_, Except.error err) => Except.error err
  | (_, Except.ok ctx) =>
      match lookupTag ctx requiredTag with
      | some inst => Except.ok inst
      | none => Except.error (LayerError.missing requiredTag)

/-- C7: a failing layer aborts resolution of everything depending on it: the
resolution state is left untouched (no dependent constructor runs) and the
failing layer's own error — not a generic or replaced one — surfaces as the
failed result, including to a top-level caller that runs a program against
the layer. -/
theorem failing_layer_aborts_dependents_with_original_error {ε : Type}
    (target : Layer ε) (idE : Nat) (e : ε) (env : Ctx) (st : ResSt)
    (requiredTag : Nat) :
    resolve (Layer.provide target (Layer.failL idE e)) env st =
      (st, Except.error (LayerError.construction e)) ∧
    (∀ n : Nat,
      constructionCount
        (resolve (Layer.provide target (Layer.failL idE e)) env st).1 n =
        constructionCount st n) ∧
    runWithLayer (Layer.provide target (Layer.failL idE e)) requiredTag =
      Except.error (LayerError.construction e) := by
  refine ⟨?_, ?_, ?_⟩
  · simp [resolve]
  · intro n; simp [resolve]
  · simp [runWithLayer, resolve]

/-! ### Forked fibers and scope closing (`asyncScopeExample`) -/

/-- The state of the source's `asyncScopeExample`: one manually created
scope, one forked fiber (the delayed task), and the flags the example
asserts on.  The example's sleeps force a deterministic interleaving: the
task starts, the scope is closed, the task completes, and only then does the
task register its cleanup finalizer. -/
structure AsyncSt where
  scope : Scope String
  taskStarted : Bool
  taskCompleted : Bool
  taskCleanedUp : Bool
  scopeClosed : Bool
  closedBeforeCompleted : Bool
  fiberInterrupted : Bool

/-- The initial state: fresh scope, nothing has happened yet. -/
def asyncInit : AsyncSt :=
  ⟨newScope, false, false, false, false, false, false⟩

/-- The forked task starts running. -/
def startTask (st : AsyncSt) : AsyncSt :=
  { st with taskStarted := true }

/-- The main program closes the scope.  Closing acts on the scope alone: it
runs the scope's registered finalizers and marks it closed; it does not
touch the fiber. -/
def closeScopeStep (st : AsyncSt) : AsyncSt :=
  let r := close st.scope (Exit.success ())
  { st with
    scope := r.scope
    scopeClosed := true
    closedBeforeCompleted := !st.taskCompleted }

/-- The forked task completes — provided it was never interrupted. -/
def completeTask (st : AsyncSt) : AsyncSt :=
  if st.fiberInterrupted then st else { st with taskCompleted := true }

/-- The cleanup finalizer the task registers after completing. -/
def cleanupFin : Finalizer String := ⟨42, fun _ => none⟩

/-- The task registers its cleanup finalizer (only reachable if the fiber is
still alive).  `taskCleanedUp` becomes true when the finalizer actually runs
— which, the scope being already closed, happens immediately at
registration. -/
def taskRegisterCleanup (st : AsyncSt) : AsyncSt :=
  if st.fiberInterrupted then st
  else
    let r := addFinalizer st.scope cleanupFin
    { st with
      scope := r.1
      taskCleanedUp := st.taskCleanedUp || !r.2.isEmpty }

/-- The whole example in its forced event order. -/
def asyncScopeRun : AsyncSt :=
  taskRegisterCleanup (completeTask (closeScopeStep (startTask asyncInit)))

/-- C10: closing a scope does not interrupt a fiber forked into it — in the
`asyncScopeExample` schedule the scope is closed while the task is in
flight, yet the task still completes, and the cleanup finalizer it registers
after the close still executes; in general the close step never touches the
fiber's state. -/
theorem scope_close_does_not_interrupt_forked_fiber :
    asyncScopeRun.taskStarted = true ∧
    asyncScopeRun.scopeClosed = true ∧
    asyncScopeRun.closedBeforeCompleted = true ∧
    asyncScopeRun.taskCompleted = true ∧
    asyncScopeRun.taskCleanedUp = true ∧
    asyncScopeRun.fiberInterrupted = false ∧
    ∀ st : AsyncSt,
      (closeScopeStep st).fiberInterrupted = st.fiberInterrupted ∧
      (closeScopeStep st).taskCompleted = st.taskCompleted := by
  refine ⟨rfl, rfl, rfl, rfl, rfl, rfl, fun st => ⟨rfl, rfl⟩⟩

end EffectModel

